import Mathlib

/-!
Verification of the `articles` static-site generator (Go, `package.go` and
`cmd/main.go`).  The Go source is shallowly embedded below: the notes file is
a list of lines (the `bufio.Scanner` yields lines without terminators), the
markdown renderer is an external collaborator and is threaded through as an
explicit function parameter `render : String → String`, and the file system
is a map from path to optional byte content (modelled as `String`) together
with a list of created directories.  Calendar dates are modelled by a record
of numerals, mirroring the fixed layout `2006/01/02` accepted by
`time.Parse`.  Go byte strings here are sequences of characters; all the
string constants involved are ASCII, where Go bytes and characters coincide.
-/

namespace Articles

set_option maxRecDepth 100000

/-- Model of Go `strings.HasPrefix` on character lists. -/
def listHasPfx : List Char → List Char → Bool
  | _, [] => true
  | [], _ :: _ => false
  | c :: s, d :: p => c == d && listHasPfx s p

/-- Go `strings.HasPrefix s p`. -/
def strHasPfx (s p : String) : Bool :=
  listHasPfx s.toList p.toList

/-- Characters accepted by Go `unicode.IsSpace` that can occur in a text
line (ASCII whitespace plus the two Latin-1 spaces). -/
def isGoSpace (c : Char) : Bool :=
  c == ' ' || c == '\t' || c == '\n' || c == '\x0b' || c == '\x0c' ||
    c == '\r' || c == '\u0085' || c == ' '

/-- Drop leading characters that belong to a cutset. -/
def dropLeadingMem : List Char → List Char → List Char
  | [], _ => []
  | c :: cs, cut => if cut.contains c then dropLeadingMem cs cut else c :: cs

/-- Model of Go `strings.TrimLeft s cutset`: removes the longest leading run
of characters each of which occurs in `cutset` (this is a character-set
trim, not removal of a literal string). -/
def trimLeftCutset (s cutset : String) : String :=
  (dropLeadingMem s.toList cutset.toList).asString

/-- Model of Go `strings.TrimSpace`. -/
def trimSpace (s : String) : String :=
  (((s.toList.dropWhile isGoSpace).reverse.dropWhile isGoSpace).reverse).asString

/-- Drop the first `n` characters of a string (kernel-reducing variant of
the core function, used so that concrete runs can be settled by
`decide`). -/
def strDrop (s : String) (n : Nat) : String :=
  (s.toList.drop n).asString

/-- Split a character list at every occurrence of a separator character;
the empty list yields one empty group, as Go `strings.Split` does. -/
def splitChar (sep : Char) : List Char → List (List Char)
  | [] => [[]]
  | c :: cs =>
    let r := splitChar sep cs
    if c == sep then [] :: r
    else
      match r with
      | [] => [[c]]
      | g :: gs => (c :: g) :: gs

/-- Model of Go `strings.Split s sep` for a one-character separator. -/
def strSplitChar (s : String) (sep : Char) : List String :=
  (splitChar sep s.toList).map List.asString

instance {ε α : Type} [DecidableEq ε] [DecidableEq α] : DecidableEq (Except ε α) := fun x y =>
  match x, y with
  | .error a, .error b => if h : a = b then .isTrue (by simp [h]) else .isFalse (by simp [h])
  | .error _, .ok _ => .isFalse (by simp)
  | .ok _, .error _ => .isFalse (by simp)
  | .ok a, .ok b => if h : a = b then .isTrue (by simp [h]) else .isFalse (by simp [h])

/-- Decimal digit value of a character. -/
def digitVal (c : Char) : Nat := c.toNat - '0'.toNat

/-- Gregorian leap-year rule, as in Go `time.isLeap`. -/
def isLeapYear (y : Nat) : Bool :=
  y % 4 == 0 && (y % 100 != 0 || y % 400 == 0)

/-- Days in a month, as in Go `time.daysIn`. -/
def daysInMonth (m y : Nat) : Nat :=
  if m == 2 then (if isLeapYear y then 29 else 28)
  else if m == 4 || m == 6 || m == 9 || m == 11 then 30
  else 31

/-- Calendar date (no time of day). -/
structure GoDate where
  year : Nat
  month : Nat
  day : Nat
  deriving DecidableEq, Repr

/-- Model of Go `time.Parse "2006/01/02" s`: exactly four year digits, a
slash, two month digits, a slash, two day digits, nothing after; the month
must lie in 1..12 and the day in the valid range for that month. -/
def parseGoDate (s : String) : Option GoDate :=
  match s.toList with
  | [y1, y2, y3, y4, c1, m1, m2, c2, d1, d2] =>
    if y1.isDigit && y2.isDigit && y3.isDigit && y4.isDigit && c1 == '/' &&
        m1.isDigit && m2.isDigit && c2 == '/' && d1.isDigit && d2.isDigit then
      let y := ((digitVal y1 * 10 + digitVal y2) * 10 + digitVal y3) * 10 + digitVal y4
      let m := digitVal m1 * 10 + digitVal m2
      let d := digitVal d1 * 10 + digitVal d2
      if 1 ≤ m ∧ m ≤ 12 ∧ 1 ≤ d ∧ d ≤ daysInMonth m y then some ⟨y, m, d⟩ else none
    else none
  | _ => none

/-- The `Article` struct of `package.go`. -/
structure Article where
  Header : String
  Content : String
  Tags : List String
  Date : GoDate
  Index : Nat
  deriving DecidableEq, Repr

/-- The zero value of the Go `Article` struct (the zero `time.Time` has
year 1, month January, day 1). -/
def zeroArticle : Article :=
  { Header := "", Content := "", Tags := [], Date := ⟨1, 1, 1⟩, Index := 0 }

/-- The scan over the body lines inside `parseArticle`: the last line with
prefix `Date:` wins, the last line with prefix `Tags:` wins, every other
line is appended to the markdown source accumulator. -/
def scanBody : List String → String → String → List String → String × String × List String
  | [], d, t, m => (d, t, m)
  | l :: rest, d, t, m =>
    if strHasPfx l "Date:" then scanBody rest l t m
    else if strHasPfx l "Tags:" then scanBody rest d l m
    else scanBody rest d t (m ++ [l])

/-- The `parseArticle` function of `package.go`, with the markdown renderer
passed in as `render`.  The returned article has `Index` zero; `parseFile`
assigns the real index. -/
def parseArticle (render : String → String) (header : String) (lines : List String) :
    Except String Article :=
  let h := trimSpace (trimLeftCutset header "# ")
  let sb := scanBody lines "" "" [header]
  let dateLine := sb.1
  let tagsLine := sb.2.1
  let markDown := sb.2.2
  let dl := trimSpace (trimLeftCutset dateLine "Date:")
  match parseGoDate dl with
  | none => .error ("cannot parse date " ++ dl)
  | some date =>
    let tl := trimLeftCutset tagsLine "Tags:"
    let tags := (strSplitChar tl ',').map trimSpace
    .ok { Header := h
          Content := render (String.intercalate "\n" markDown)
          Tags := tags
          Date := date
          Index := 0 }

/-- The scanner loop of `parseFile`: `last` is the pending heading line (the
empty string when no heading has been seen), `lines` the accumulated body
lines, `index` the next index to assign, `res` the finalized articles so
far.  Note that `lines` is reset only when a record is finalized, so lines
seen before the first heading become part of the first record. -/
def parseLoop (render : String → String) :
    List String → String → List String → Nat → List Article → Except String (List Article)
  | [], last, lines, index, res =>
    if last != "" then
      match parseArticle render last lines with
      | .error e => .error e
      | .ok a => .ok (res ++ [{ a with Index := index }])
    else .ok res
  | text :: rest, last, lines, index, res =>
    if strHasPfx text "# " then
      if last != "" then
        match parseArticle render last lines with
        | .error e => .error e
        | .ok a => parseLoop render rest text [] (index + 1) (res ++ [{ a with Index := index }])
      else parseLoop render rest text lines index res
    else parseLoop render rest last (lines ++ [text]) index res

/-- The `reverse` function of `package.go`, translated faithfully: the Go
code allocates `n := make([]Article, len(res))` — a slice already holding
`len(res)` zero-value articles — and then appends the elements of `res` in
reverse, so the result is the zero padding followed by the reversal. -/
def reverse (res : List Article) : List Article :=
  List.replicate res.length zeroArticle ++ res.reverse

/-- The `parseFile` function of `package.go`, acting on the list of lines
of the notes file. -/
def parseFile (render : String → String) (input : List String) :
    Except String (List Article) :=
  match parseLoop render input "" [] 1 [] with
  | .error e => .error e
  | .ok res => .ok (reverse res)

/-- Model of Go `path.Clean` (lexical processing): empty path becomes `.`,
segments that are empty or `.` are dropped, `..` pops the previous segment
when one is available, is kept when the path is relative and nothing can be
popped, and is dropped at the root of a rooted path. -/
def pathClean (p : String) : String :=
  if p = "" then "." else
  let rooted := strHasPfx p "/"
  let parts := (strSplitChar p '/').filter (fun s => !(s == "" || s == "."))
  let out := parts.foldl
    (fun acc part =>
      if part == ".." then
        if acc != [] && acc.getLast? != some ".." then acc.dropLast
        else if rooted then acc
        else acc ++ [part]
      else acc ++ [part]) ([] : List String)
  let s := String.intercalate "/" out
  if rooted then "/" ++ s else if s == "" then "." else s

/-- Model of Go `path.Join`: the elements from the first non-empty one are
joined with slashes and the result is cleaned; all-empty input gives the
empty string. -/
def goPathJoin (elems : List String) : String :=
  let rest := elems.dropWhile (fun s => s == "")
  if rest.isEmpty then "" else pathClean (String.intercalate "/" rest)

/-- The `indexFile` helper of `package.go`. -/
def indexFile (base : String) : String :=
  goPathJoin [base, "index.html"]

/-- The `articleFile` helper of `package.go` (`%d.html`). -/
def articleFile (base : String) (index : Nat) : String :=
  goPathJoin [base, Nat.repr index ++ ".html"]

/-- The `tagFile` helper of `package.go` (`tag/%s.html`). -/
def tagFile (base tag : String) : String :=
  goPathJoin [base, "tag", tag ++ ".html"]

/-- Escaping applied by `html/template` to an interpolated character in
text or quoted-attribute context. -/
def escChar (c : Char) : String :=
  if c == '<' then "&lt;"
  else if c == '>' then "&gt;"
  else if c == '&' then "&amp;"
  else if c == '\'' then "&#39;"
  else if c == '"' then "&#34;"
  else c.toString

/-- HTML escaping of an interpolated string (`html/template`).  URL
normalisation inside `href` attributes is not modelled; no verified
property below depends on the bytes of a link containing characters that
normalisation would rewrite. -/
def htmlEscape (s : String) : String :=
  String.join (s.toList.map escChar)

/-- Short month names used by the Go layout `2 Jan 2006`. -/
def monthName : Nat → String
  | 1 => "Jan"
  | 2 => "Feb"
  | 3 => "Mar"
  | 4 => "Apr"
  | 5 => "May"
  | 6 => "Jun"
  | 7 => "Jul"
  | 8 => "Aug"
  | 9 => "Sep"
  | 10 => "Oct"
  | 11 => "Nov"
  | 12 => "Dec"
  | _ => "???"

/-- Zero-padded four-digit year, as Go formats the `2006` layout field. -/
def pad4 (y : Nat) : String :=
  if y < 10 then "000" ++ Nat.repr y
  else if y < 100 then "00" ++ Nat.repr y
  else if y < 1000 then "0" ++ Nat.repr y
  else Nat.repr y

/-- Go `t.Format "2 Jan 2006"` on a calendar date. -/
def formatGoDate (d : GoDate) : String :=
  Nat.repr d.day ++ " " ++ monthName d.month ++ " " ++ pad4 d.year

/-- The `renderArticle` struct of `package.go`. -/
structure RenderArticle where
  Header : String
  Link : String
  deriving DecidableEq, Repr

/-- The `prepareForRender` function of `package.go`. -/
def prepareForRender (articles : List Article) : List RenderArticle :=
  articles.map (fun a => { Header := a.Header, Link := Nat.repr a.Index ++ ".html" })

/-- One loop iteration of the `range` action in `homeTempl`. -/
def homeItem (r : RenderArticle) : String :=
  "\n\t\t<p>\n\t\t\t<a href=\"" ++ htmlEscape r.Link ++ "\">" ++ htmlEscape r.Header ++
    "</a>\n\t\t</p>\n\t"

/-- The bytes produced by executing `homeTempl` on a list of render
articles. -/
def renderHome (items : List RenderArticle) : String :=
  "\n<html>\n<head>\n\t<title>Sheki articles of interest</title>\n</head>\n<body>\n\t<h1>Articles of interest</h1>\n\t"
    ++ String.join (items.map homeItem) ++ "\n</body>\n</html>"

/-- One loop iteration of the `range .Tags` action in `pageTempl`. -/
def pageTag (t : String) : String :=
  "\n\t\t  <a href=\"tag/" ++ htmlEscape t ++ ".html\">" ++ htmlEscape t ++ "</a>\n\t\t"

/-- The bytes produced by executing `pageTempl` on an article; `.Content`
has type `template.HTML` and is passed through unescaped. -/
def renderPage (a : Article) : String :=
  "\n<html>\n  <head>\n\t  <title>Sheki articles of interest</title>\n\t</head>\n\t<body>\n    <p>\n\t  "
    ++ a.Content ++ "\n\t\t</p>\n\t\t<p>Date: " ++ htmlEscape (formatGoDate a.Date) ++
    "</p>\n\t\t<p>\n\t\t" ++ String.join (a.Tags.map pageTag) ++
    "\n\t\t</p>\n\t</body>\n</html>\n"

/-- One loop iteration of the `range .Articles` action in `tagTempl`. -/
def tagItem (a : Article) : String :=
  "\n\t\t<p>\n\t\t\t<a href=\"/" ++ Nat.repr a.Index ++ ".html\">" ++ htmlEscape a.Header ++
    "</a>\n\t\t</p>\n\t"

/-- The bytes produced by executing `tagTempl` on a tag and its article
list. -/
def renderTag (tag : String) (articles : List Article) : String :=
  "\n<html>\n<head>\n\t<title>Sheki articles of interest</title>\n</head>\n<body>\n<h1>Tag: "
    ++ htmlEscape tag ++ "</h1>\n\t" ++ String.join (articles.map tagItem) ++
    "\n</body>\n</html>"

/-- File-system state: content of each path (`none` when the file does not
exist) and the list of created directories. -/
structure FS where
  files : String → Option String
  dirs : List String

/-- The empty output directory. -/
def emptyFS : FS := { files := fun _ => none, dirs := [] }

/-- Semantics of `os.OpenFile p (O_RDWR|O_CREATE) 0644` followed by writing
`c` from offset zero: the file is created empty when absent and is never
truncated, so bytes of an existing longer file beyond the new content
survive. -/
def writeNoTrunc (f : String → Option String) (p c : String) : String → Option String :=
  fun q => if q = p then some (c ++ strDrop ((f p).getD "") c.length) else f q

/-- Semantics of `os.OpenFile p (O_RDWR|O_CREATE) 0644` with no write at
all: the file is created empty when absent, existing content is kept. -/
def openCreate (f : String → Option String) (p : String) : String → Option String :=
  fun q => if q = p then some ((f p).getD "") else f q

/-- The `generateIndex` function of `package.go` acting on the modelled
file system. -/
def generateIndex (base : String) (articles : List Article) (fs : FS) : FS :=
  { fs with files := writeNoTrunc fs.files (indexFile base) (renderHome (prepareForRender articles)) }

/-- The `generateArticlePage` function of `package.go`. -/
def generateArticlePage (base : String) (a : Article) (fs : FS) : FS :=
  { fs with files := writeNoTrunc fs.files (articleFile base a.Index) (renderPage a) }

/-- The `generateArticlePages` function of `package.go`. -/
def generateArticlePages (base : String) (articles : List Article) (fs : FS) : FS :=
  articles.foldl (fun fs a => generateArticlePage base a fs) fs

/-- The `generateTagFile` function of `package.go`. -/
def generateTagFile (base tag : String) (articles : List Article) (fs : FS) : FS :=
  { fs with files := writeNoTrunc fs.files (tagFile base tag) (renderTag tag articles) }

/-- One step of building the Go map `tagMap`:
`tagMap[tag] = append(tagMap[tag], a)`, on an association list kept in key
insertion order. -/
def upsertTag (m : List (String × List Article)) (tag : String) (a : Article) :
    List (String × List Article) :=
  match m with
  | [] => [(tag, [a])]
  | (k, l) :: rest => if k = tag then (k, l ++ [a]) :: rest else (k, l) :: upsertTag rest tag a

/-- The `tagMap` built inside `generateTags`, as an association list in key
insertion order.  Ranging over the Go map delivers these entries in an
unspecified order; the theorems below therefore quantify over an arbitrary
permutation of this list. -/
def buildTagMap (articles : List Article) : List (String × List Article) :=
  articles.foldl (fun m a => a.Tags.foldl (fun m t => upsertTag m t a) m) []

/-- The `os.Mkdir` call of `generateTags` for the `tag` subdirectory. -/
def mkdirTag (base : String) (fs : FS) : FS :=
  let d := goPathJoin [base, "tag"]
  if d ∈ fs.dirs then fs else { fs with dirs := fs.dirs ++ [d] }

/-- The `generateTags` function of `package.go`: create the `tag` directory
if needed, open the index file read/write without ever writing to it, then
write one tag file per map entry.  `order` is the sequence of key/value
pairs delivered by ranging over the Go map. -/
def generateTags (base : String) (order : List (String × List Article)) (fs : FS) : FS :=
  let fs1 := mkdirTag base fs
  let fs2 := { fs1 with files := openCreate fs1.files (indexFile base) }
  order.foldl (fun fs e => generateTagFile base e.1 e.2 fs) fs2

/-- The `Generate` function of `package.go`, returning the final file
system and the error outcome (`none` on success).  On a parse error the
file system is returned untouched. -/
def GenerateRun (render : String → String) (notes : List String) (baseDir : String)
    (order : List (String × List Article)) (fs : FS) : FS × Option String :=
  match parseFile render notes with
  | .error e => (fs, some e)
  | .ok arr =>
    (generateTags baseDir order (generateArticlePages baseDir arr (generateIndex baseDir arr fs)),
      none)

/-- Number of heading lines of a notes file. -/
def countHeadings (input : List String) : Nat :=
  (input.filter (fun l => strHasPfx l "# ")).length

/-- Modelled from the specification wording, for comparison with the code:
grouping of the lines after a heading into records, each record running to
the next heading or end of file. -/
def groupRecs : List String → String → List String → List (String × List String)
  | [], h, acc => [(h, acc)]
  | l :: rest, h, acc =>
    if strHasPfx l "# " then (h, acc) :: groupRecs rest l []
    else groupRecs rest h (acc ++ [l])

/-- Modelled from the specification wording: the records of a notes file,
each starting at a heading line and continuing until the next heading or
end of file; lines before the first heading belong to no record. -/
def specRecords (input : List String) : List (String × List String) :=
  match input.dropWhile (fun l => !(strHasPfx l "# ")) with
  | [] => []
  | h :: rest => groupRecs rest h []

/-- Whether the date line extracted from a record body (last `Date:` line,
cutset-trimmed and whitespace-trimmed) parses. -/
def recordDateOK (lines : List String) : Bool :=
  (parseGoDate (trimSpace (trimLeftCutset (scanBody lines "" "" []).1 "Date:"))).isSome

/-- The tag list described by the claim wording for C5: remove the literal
five-character `Tags:` prefix, split on commas, trim surrounding
whitespace of each piece. -/
def specC5Tags (tagsLine : String) : List String :=
  (strSplitChar (strDrop tagsLine 5) ',').map trimSpace

/-- Apply a sequence of non-truncating writes. -/
def applyWrites : (String → Option String) → List (String × String) → String → Option String
  | f, [] => f
  | f, w :: ws => applyWrites (writeNoTrunc f w.1 w.2) ws

/-- The path/content pairs written by a successful run on article list
`arr` with tag-map iteration order `order`: the index page, then one page
per article, then one file per tag entry. -/
def writesOf (base : String) (arr : List Article) (order : List (String × List Article)) :
    List (String × String) :=
  (indexFile base, renderHome (prepareForRender arr)) ::
    (arr.map (fun a => (articleFile base a.Index, renderPage a)) ++
      order.map (fun e => (tagFile base e.1, renderTag e.1 e.2)))

/-- Notes file exhibiting two tag names whose cleaned output paths
coincide. -/
def c9notes : List String := ["# A", "Date: 2015/03/02", "Tags: b, a/../b"]

/-- The single real article parsed from `c9notes`. -/
def c9article : Article :=
  { Header := "A", Content := "# A", Tags := ["b", "a/../b"],
    Date := ⟨2015, 3, 2⟩, Index := 1 }

/-- One possible iteration order of the tag map of `c9notes`. -/
def c9orderA : List (String × List Article) :=
  [("b", [c9article]), ("a/../b", [c9article])]

/-- The other possible iteration order of the tag map of `c9notes`. -/
def c9orderB : List (String × List Article) :=
  [("a/../b", [c9article]), ("b", [c9article])]

/-- First run on the empty directory, tag map iterated in order A. -/
def c9run1 : FS := (GenerateRun (fun s => s) c9notes "docs" c9orderA emptyFS).1

/-- Second run on the result of the first, tag map iterated in order B. -/
def c9run2 : FS := (GenerateRun (fun s => s) c9notes "docs" c9orderB c9run1).1

/-- A pre-existing file content longer than any page rendered in the
witness scenarios below. -/
def longContent : String := String.join (List.replicate 300 "yz")

/-- An output directory where every path already holds `longContent`. -/
def fullFS : FS := { files := fun _ => some longContent, dirs := [] }

/-- An output directory holding only an index page with content `abc`. -/
def idxFS : FS :=
  { files := fun q => if q = "docs/index.html" then some "abc" else none, dirs := [] }

/-! Theorems.  Helper lemmas come first, then one theorem per claim (plus
counterexamples and witnesses). -/

theorem strAppendEmpty (s : String) : s ++ "" = s := by
  cases s with
  | mk data => exact congrArg String.mk (List.append_nil data)

theorem strDropLengthSelf (s : String) : strDrop s s.length = "" := by
  cases s with
  | mk data => simp [strDrop, String.toList, String.length, List.asString]

theorem scanBody_tags_of_none (ls : List String) :
    ∀ d t m, (∀ l ∈ ls, strHasPfx l "Tags:" = false) → (scanBody ls d t m).2.1 = t := by
  induction ls with
  | nil => intro d t m _; rfl
  | cons l rest ih =>
    intro d t m hno
    by_cases hd : strHasPfx l "Date:" = true
    · simp [scanBody, hd]
      exact ih l t m (fun x hx => hno x (List.mem_cons_of_mem _ hx))
    · have ht : strHasPfx l "Tags:" = false := hno l (List.mem_cons_self _ _)
      simp [scanBody, hd, ht]
      exact ih d t (m ++ [l]) (fun x hx => hno x (List.mem_cons_of_mem _ hx))

theorem parseArticle_ok_iff (render : String → String) (header : String)
    (lines : List String) (a : Article) :
    parseArticle render header lines = .ok a ↔
      ∃ d, parseGoDate (trimSpace (trimLeftCutset (scanBody lines "" "" [header]).1 "Date:")) =
          some d ∧
        a = { Header := trimSpace (trimLeftCutset header "# ")
              Content := render (String.intercalate "\n" (scanBody lines "" "" [header]).2.2)
              Tags := (strSplitChar (trimLeftCutset (scanBody lines "" "" [header]).2.1 "Tags:")
                  ',').map trimSpace
              Date := d
              Index := 0 } := by
  unfold parseArticle
  cases h : parseGoDate (trimSpace (trimLeftCutset (scanBody lines "" "" [header]).1 "Date:")) with
  | none => simp [h]
  | some d => simp [h, eq_comm]

/-- C6: a record containing no line with the `Tags:` prefix parses to an
article whose tag list is exactly the one-element list holding the empty
string: splitting the empty trimmed tags line on commas yields one empty
piece. -/
theorem c6_missing_tags_singleton (render : String → String) (header : String)
    (lines : List String) (a : Article)
    (hno : ∀ l ∈ lines, strHasPfx l "Tags:" = false)
    (hok : parseArticle render header lines = .ok a) :
    a.Tags = [""] := by
  rcases (parseArticle_ok_iff render header lines a).mp hok with ⟨d, hd, rfl⟩
  rw [scanBody_tags_of_none lines "" "" [header] hno]
  show (strSplitChar (trimLeftCutset "" "Tags:") ',').map trimSpace = [""]
  decide

theorem c6_witness :
    ({ Header := "T", Content := "# T", Tags := [""], Date := ⟨2015, 3, 2⟩,
        Index := 0 } : Article).Tags = [""] :=
  c6_missing_tags_singleton (fun s => s) "# T" ["Date: 2015/03/02"]
    ⟨"T", "# T", [""], ⟨2015, 3, 2⟩, 0⟩ (by decide) (by decide)

/-- C7: the three page writers open their output file read/write with
creation and never truncate, so the bytes they leave at the target path are
the fresh content followed by whatever bytes of the previous, longer
content lie beyond it — the stale tail survives. -/
theorem c7_no_truncation (base : String) (fs : FS) (a : Article) (tag : String)
    (tagArts arts : List Article) (oldA oldT oldI : String)
    (hA : fs.files (articleFile base a.Index) = some oldA)
    (hT : fs.files (tagFile base tag) = some oldT)
    (hI : fs.files (indexFile base) = some oldI)
    (hlA : (renderPage a).length ≤ oldA.length)
    (hlT : (renderTag tag tagArts).length ≤ oldT.length)
    (hlI : (renderHome (prepareForRender arts)).length ≤ oldI.length) :
    (generateArticlePage base a fs).files (articleFile base a.Index) =
      some (renderPage a ++ strDrop oldA (renderPage a).length) ∧
    (generateTagFile base tag tagArts fs).files (tagFile base tag) =
      some (renderTag tag tagArts ++ strDrop oldT (renderTag tag tagArts).length) ∧
    (generateIndex base arts fs).files (indexFile base) =
      some (renderHome (prepareForRender arts) ++
        strDrop oldI (renderHome (prepareForRender arts)).length) := by
  refine ⟨?_, ?_, ?_⟩
  · simp [generateArticlePage, writeNoTrunc, hA]
  · simp [generateTagFile, writeNoTrunc, hT]
  · simp [generateIndex, writeNoTrunc, hI]

theorem c7_witness :
    (generateArticlePage "docs" zeroArticle fullFS).files (articleFile "docs" zeroArticle.Index) =
      some (renderPage zeroArticle ++ strDrop longContent (renderPage zeroArticle).length) ∧
    (generateTagFile "docs" "" [] fullFS).files (tagFile "docs" "") =
      some (renderTag "" [] ++ strDrop longContent (renderTag "" []).length) ∧
    (generateIndex "docs" [] fullFS).files (indexFile "docs") =
      some (renderHome (prepareForRender []) ++
        strDrop longContent (renderHome (prepareForRender [])).length) :=
  c7_no_truncation "docs" fullFS zeroArticle "" [] [] longContent longContent longContent
    rfl rfl rfl (by decide) (by decide) (by decide)

/-- C1: the claim says Generate writes exactly one article page per heading
line.  In the code, `reverse` allocates a slice that already contains
`len(res)` zero-value articles and appends the reversed articles after
them, so a file with one heading line yields two parsed articles and the
run writes two distinct article pages, `0.html` (from the zero-value
article) and `1.html`. -/
theorem c1_extra_zero_page :
    countHeadings ["# A", "Date: 2015/03/02"] = 1 ∧
    (parseFile (fun s => s) ["# A", "Date: 2015/03/02"]).map
        (fun arr => (arr.map (fun a => articleFile "docs" a.Index)).dedup) =
      .ok ["docs/0.html", "docs/1.html"] ∧
    (GenerateRun (fun s => s) ["# A", "Date: 2015/03/02"] "docs"
          [("", [⟨"A", "# A", [""], ⟨2015, 3, 2⟩, 1⟩])] emptyFS).1.files "docs/0.html" =
      some (renderPage zeroArticle) := by
  decide

/-- C2: the claim says `parseFile` returns exactly the reverse of the
finalized records.  The scanner loop finalizes the single record of the
input below, yet `parseFile` returns a two-element list: a zero-value
article is prepended by the buggy `reverse`. -/
theorem c2_reverse_padded :
    parseLoop (fun s => s) ["# A", "Date: 2015/03/02"] "" [] 1 [] =
      .ok [⟨"A", "# A", [""], ⟨2015, 3, 2⟩, 1⟩] ∧
    parseFile (fun s => s) ["# A", "Date: 2015/03/02"] =
      .ok [zeroArticle, ⟨"A", "# A", [""], ⟨2015, 3, 2⟩, 1⟩] ∧
    ([zeroArticle, ⟨"A", "# A", [""], ⟨2015, 3, 2⟩, 1⟩] : List Article) ≠
      List.reverse [⟨"A", "# A", [""], ⟨2015, 3, 2⟩, 1⟩] := by
  decide

/-- C3: the claim says the indices of the articles returned by `parseFile`
are pairwise unique.  On a two-heading file the returned list carries the
indices 0, 0, 2, 1: the two zero-value articles injected by the buggy
`reverse` share index 0. -/
theorem c3_duplicate_zero_index :
    (parseFile (fun s => s) ["# A", "Date: 2015/03/02", "# B", "Date: 2016/01/05"]).map
        (fun arr => arr.map Article.Index) =
      .ok [0, 0, 2, 1] ∧
    ¬ ([0, 0, 2, 1] : List Nat).Nodup := by
  decide

/-- C4 counterexample: a notes file whose only record (per the spec notion
of record, heading line to next heading) has no `Date:` line, yet
`parseFile` succeeds and the run completes, because the scanner folds the
lines seen before the first heading into the first record and a `Date:`
line sits there. -/
theorem c4_counterexample :
    specRecords ["Date: 2015/03/02", "# A"] = [("# A", [])] ∧
    recordDateOK [] = false ∧
    (parseFile (fun s => s) ["Date: 2015/03/02", "# A"]).toOption ≠ none ∧
    (GenerateRun (fun s => s) ["Date: 2015/03/02", "# A"] "docs"
        [("", [⟨"A", "# A", [""], ⟨2015, 3, 2⟩, 1⟩])] emptyFS).2 = none := by
  decide

/-- C5 counterexample: the code trims the cutset `Tags:` (any leading run
of the characters T, a, g, s, colon), not the literal five-character
prefix, so the line `Tags:star, x` yields the tags `tar`, `x` where the
claim predicts `star`, `x`. -/
theorem c5_counterexample :
    parseArticle (fun s => s) "# T" ["Date: 2015/03/02", "Tags:star, x"] =
      .ok ⟨"T", "# T", ["tar", "x"], ⟨2015, 3, 2⟩, 0⟩ ∧
    specC5Tags "Tags:star, x" = ["star", "x"] ∧
    (["tar", "x"] : List String) ≠ ["star", "x"] := by
  decide

/-- C9 counterexample: the tags `b` and `a/../b` of `c9notes` clean to the
same output path `docs/tag/b.html`; with one tag-map iteration order per
run and non-truncating writes, the second run leaves different bytes at
that path than the first, so the two runs are not byte-identical. -/
theorem c9_counterexample :
    c9orderB.Perm (buildTagMap [zeroArticle, c9article]) ∧
    parseFile (fun s => s) c9notes = .ok [zeroArticle, c9article] ∧
    tagFile "docs" "a/../b" = tagFile "docs" "b" ∧
    c9run2.files "docs/tag/b.html" ≠ c9run1.files "docs/tag/b.html" := by
  decide

/-- C10 counterexample: `generateTags` opens the index file with
`O_CREATE`, so on a directory where `index.html` does not exist it creates
the file empty: the content of `index.html` is changed (from absent to
present and empty) even for the empty article list, whose tag map is
empty. -/
theorem c10_counterexample :
    buildTagMap [] = [] ∧
    emptyFS.files (indexFile "docs") = none ∧
    (generateTags "docs" [] emptyFS).files (indexFile "docs") = some "" := by
  decide

theorem strDropEmpty (n : Nat) : strDrop "" n = "" := by
  show (("" : String).toList.drop n).asString = ""
  have h : ("" : String).toList = [] := rfl
  rw [h, List.drop_nil]
  rfl

theorem parseLoop_no_heading (render : String → String) (input : List String) :
    ∀ lines, (∀ l ∈ input, strHasPfx l "# " = false) →
      parseLoop render input "" lines 1 [] = .ok [] := by
  induction input with
  | nil => intro lines _; rfl
  | cons l rest ih =>
    intro lines h
    have hl : strHasPfx l "# " = false := h l (List.mem_cons_self _ _)
    simp [parseLoop, hl]
    exact ih (lines ++ [l]) (fun x hx => h x (List.mem_cons_of_mem _ hx))

/-- C8: a notes file with no heading line parses to the empty article
sequence with no error, and the run on an empty output directory writes
no article page and no tag page: the only file it leaves behind is the
index page rendered over the empty listing. -/
theorem c8_zero_headings (render : String → String) (base : String) (input : List String)
    (p : String) (hno : ∀ l ∈ input, strHasPfx l "# " = false) :
    parseFile render input = .ok [] ∧
    (GenerateRun render input base [] emptyFS).2 = none ∧
    (GenerateRun render input base [] emptyFS).1.files (indexFile base) = some (renderHome []) ∧
    (p ≠ indexFile base → (GenerateRun render input base [] emptyFS).1.files p = none) := by
  have hpf : parseFile render input = .ok [] := by
    unfold parseFile
    rw [parseLoop_no_heading render input [] hno]
    rfl
  refine ⟨hpf, ?_, ?_, ?_⟩
  · simp [GenerateRun, hpf]
  · simp [GenerateRun, hpf, generateTags, generateArticlePages, generateIndex, mkdirTag,
      openCreate, writeNoTrunc, emptyFS, strDropEmpty, strAppendEmpty, prepareForRender]
  · intro hne
    simp [GenerateRun, hpf, generateTags, generateArticlePages, generateIndex, mkdirTag,
      openCreate, writeNoTrunc, emptyFS, hne]

theorem c8_witness :
    parseFile (fun s => s) ["hello", "Date: 2015/03/02"] = .ok [] ∧
    (GenerateRun (fun s => s) ["hello", "Date: 2015/03/02"] "docs" [] emptyFS).2 = none ∧
    (GenerateRun (fun s => s) ["hello", "Date: 2015/03/02"] "docs" [] emptyFS).1.files
        (indexFile "docs") = some (renderHome []) ∧
    ("docs/1.html" ≠ indexFile "docs" →
      (GenerateRun (fun s => s) ["hello", "Date: 2015/03/02"] "docs" [] emptyFS).1.files
          "docs/1.html" = none) :=
  c8_zero_headings (fun s => s) "docs" ["hello", "Date: 2015/03/02"] "docs/1.html" (by decide)

theorem scanBody_date_indep (ls : List String) :
    ∀ d t m m', (scanBody ls d t m).1 = (scanBody ls d t m').1 := by
  induction ls with
  | nil => intro d t m m'; rfl
  | cons l rest ih =>
    intro d t m m'
    by_cases hd : strHasPfx l "Date:" = true
    · simp [scanBody, hd]; exact ih l t m m'
    · by_cases ht : strHasPfx l "Tags:" = true
      · simp [scanBody, hd, ht]; exact ih d l m m'
      · simp [scanBody, hd, ht]; exact ih d t (m ++ [l]) (m' ++ [l])

theorem parseArticle_bad (render : String → String) (header : String) (lines : List String)
    (hbad : recordDateOK lines = false) :
    (parseArticle render header lines).toOption = none := by
  unfold recordDateOK at hbad
  cases hpo : parseArticle render header lines with
  | error e => rfl
  | ok a =>
    exfalso
    rcases (parseArticle_ok_iff render header lines a).mp hpo with ⟨d, hd, _⟩
    rw [scanBody_date_indep lines "" "" [header] []] at hd
    rw [hd] at hbad
    simp at hbad

theorem hasPfxHash_ne_empty (l : String) (h : strHasPfx l "# " = true) : l ≠ "" := by
  intro he
  rw [he] at h
  exact absurd h (by decide)

theorem parseLoop_bad_record (render : String → String) (rest : List String) :
    ∀ (h : String) (acc : List String) (index : Nat) (res : List Article),
      h ≠ "" →
      (∃ r ∈ groupRecs rest h acc, recordDateOK r.2 = false) →
      (parseLoop render rest h acc index res).toOption = none := by
  induction rest with
  | nil =>
    intro h acc index res hne hex
    rcases hex with ⟨r, hr, hbad⟩
    simp [groupRecs] at hr
    subst hr
    simp [parseLoop, hne]
    cases hp : parseArticle render h acc with
    | error e => rfl
    | ok a =>
      have hcontra := parseArticle_bad render h acc hbad
      rw [hp] at hcontra
      exact Option.noConfusion hcontra
  | cons l rest ih =>
    intro h acc index res hne hex
    by_cases hl : strHasPfx l "# " = true
    · rcases hex with ⟨r, hr, hbad⟩
      rw [groupRecs] at hr
      simp [hl] at hr
      simp [parseLoop, hl, hne]
      cases hp : parseArticle render h acc with
      | error e => rfl
      | ok a =>
        rcases hr with hr | hr
        · subst hr
          have hcontra := parseArticle_bad render h acc hbad
          rw [hp] at hcontra
          exact Option.noConfusion hcontra
        · exact ih l [] (index + 1) (res ++ [{ a with Index := index }])
            (hasPfxHash_ne_empty l hl) ⟨r, hr, hbad⟩
    · rcases hex with ⟨r, hr, hbad⟩
      rw [groupRecs] at hr
      simp [hl] at hr
      simp [parseLoop, hl]
      exact ih h (acc ++ [l]) index res hne ⟨r, hr, hbad⟩

/-- C4 (amended): for a notes file with no lines before the first heading
(so the spec notion of record and the scanner notion coincide), if some
record has a missing or unparseable date line then `parseFile` returns an
error with no article list, and Generate leaves the file system completely
untouched. -/
theorem c4_amended (render : String → String) (base : String)
    (order : List (String × List Article)) (fs : FS) (input : List String)
    (hpre : input.takeWhile (fun l => !(strHasPfx l "# ")) = [])
    (hbad : ∃ r ∈ specRecords input, recordDateOK r.2 = false) :
    (parseFile render input).toOption = none ∧
    (GenerateRun render input base order fs).1 = fs ∧
    ((GenerateRun render input base order fs).2).isSome = true := by
  have hpf : (parseFile render input).toOption = none := by
    cases input with
    | nil => simp [specRecords] at hbad
    | cons l rest =>
      have hl : strHasPfx l "# " = true := by
        cases hx : strHasPfx l "# " with
        | true => rfl
        | false => simp [List.takeWhile_cons, hx] at hpre
      have hsr : specRecords (l :: rest) = groupRecs rest l [] := by
        simp [specRecords, List.dropWhile_cons, hl]
      rw [hsr] at hbad
      unfold parseFile
      have hmain := parseLoop_bad_record render rest l [] 1 []
        (hasPfxHash_ne_empty l hl) hbad
      have hstep : parseLoop render (l :: rest) "" [] 1 [] = parseLoop render rest l [] 1 [] := by
        simp [parseLoop, hl]
      rw [hstep]
      cases hres : parseLoop render rest l [] 1 [] with
      | error e => rfl
      | ok r => rw [hres] at hmain; exact Option.noConfusion hmain
  refine ⟨hpf, ?_, ?_⟩
  · cases hpe : parseFile render input with
    | error e => simp [GenerateRun, hpe]
    | ok r => rw [hpe] at hpf; exact Option.noConfusion hpf
  · cases hpe : parseFile render input with
    | error e => simp [GenerateRun, hpe]
    | ok r => rw [hpe] at hpf; exact Option.noConfusion hpf


theorem c4_witness :
    (parseFile (fun s => s) ["# A", "Date: 2015/03/02", "# B"]).toOption = none ∧
    (GenerateRun (fun s => s) ["# A", "Date: 2015/03/02", "# B"] "docs" [] emptyFS).1 = emptyFS ∧
    ((GenerateRun (fun s => s) ["# A", "Date: 2015/03/02", "# B"] "docs" [] emptyFS).2).isSome =
      true :=
  c4_amended (fun s => s) "docs" [] emptyFS ["# A", "Date: 2015/03/02", "# B"]
    (by decide) ⟨("# B", []), by decide, by decide⟩

theorem tags_not_date (l : String) (h : strHasPfx l "Tags:" = true) :
    strHasPfx l "Date:" = false := by
  unfold strHasPfx at h ⊢
  have ht : ("Tags:" : String).toList = ['T', 'a', 'g', 's', ':'] := rfl
  have hd : ("Date:" : String).toList = ['D', 'a', 't', 'e', ':'] := rfl
  rw [ht] at h
  rw [hd]
  cases hl : l.toList with
  | nil => rw [hl] at h; simp [listHasPfx] at h
  | cons c cs =>
    rw [hl] at h
    simp [listHasPfx] at h ⊢
    intro hc
    rw [hc] at h
    exact absurd h.1 (by decide)

theorem scanBody_append (xs : List String) :
    ∀ (ys : List String) (d t : String) (m : List String),
      scanBody (xs ++ ys) d t m =
        scanBody ys (scanBody xs d t m).1 (scanBody xs d t m).2.1 (scanBody xs d t m).2.2 := by
  induction xs with
  | nil => intro ys d t m; rfl
  | cons l rest ih =>
    intro ys d t m
    by_cases hd : strHasPfx l "Date:" = true
    · simp [scanBody, hd]; exact ih ys l t m
    · by_cases htg : strHasPfx l "Tags:" = true
      · simp [scanBody, hd, htg]; exact ih ys d l m
      · simp [scanBody, hd, htg]; exact ih ys d t (m ++ [l])

/-- C5 (amended): for a record whose last `Tags:` line is `t`, the tag list
is obtained by trimming from the front of `t` the longest run of characters
drawn from the cutset T, a, g, s, colon (Go `strings.TrimLeft` semantics,
not removal of the literal five-character prefix), splitting the remainder
on commas and trimming whitespace around each piece, in split order. -/
theorem c5_amended (render : String → String) (header : String) (pre post : List String)
    (t : String) (a : Article)
    (ht : strHasPfx t "Tags:" = true)
    (hpost : ∀ l ∈ post, strHasPfx l "Tags:" = false)
    (hok : parseArticle render header (pre ++ t :: post) = .ok a) :
    a.Tags = (strSplitChar (trimLeftCutset t "Tags:") ',').map trimSpace := by
  rcases (parseArticle_ok_iff render header (pre ++ t :: post) a).mp hok with ⟨d, hd, rfl⟩
  have hTL : (scanBody (pre ++ t :: post) "" "" [header]).2.1 = t := by
    rw [scanBody_append]
    have hnd : strHasPfx t "Date:" = false := tags_not_date t ht
    simp [scanBody, hnd, ht]
    exact scanBody_tags_of_none post _ _ _ hpost
  show (strSplitChar (trimLeftCutset (scanBody (pre ++ t :: post) "" "" [header]).2.1 "Tags:")
      ',').map trimSpace = (strSplitChar (trimLeftCutset t "Tags:") ',').map trimSpace
  rw [hTL]

theorem c5_witness :
    ({ Header := "T", Content := "# T", Tags := ["go", "unix"], Date := ⟨2015, 3, 2⟩,
        Index := 0 } : Article).Tags =
      (strSplitChar (trimLeftCutset "Tags: go, unix" "Tags:") ',').map trimSpace :=
  c5_amended (fun s => s) "# T" ["Date: 2015/03/02"] [] "Tags: go, unix"
    ⟨"T", "# T", ["go", "unix"], ⟨2015, 3, 2⟩, 0⟩ (by decide) (by decide) (by decide)

theorem mkdirTag_files (base : String) (fs : FS) : (mkdirTag base fs).files = fs.files := by
  by_cases h : goPathJoin [base, "tag"] ∈ fs.dirs <;> simp [mkdirTag, h]

theorem tagfold_untouched (base : String) (order : List (String × List Article)) :
    ∀ (fs : FS) (p : String), (∀ e ∈ order, p ≠ tagFile base e.1) →
      (order.foldl (fun fs e => generateTagFile base e.1 e.2 fs) fs).files p = fs.files p := by
  induction order with
  | nil => intro fs p _; rfl
  | cons e rest ih =>
    intro fs p h
    rw [List.foldl_cons]
    rw [ih (generateTagFile base e.1 e.2 fs) p (fun x hx => h x (List.mem_cons_of_mem _ hx))]
    have hne : p ≠ tagFile base e.1 := h e (List.mem_cons_self _ _)
    simp [generateTagFile, writeNoTrunc, hne]

/-- C10 (amended): `generateTags` opens the index file but never writes
bytes to it, so whenever the index file already exists its content is
unchanged (provided no tag cleans to the index path), and every path other
than the index file and the tag-file paths is untouched; when the index
file is absent it is created empty (see the counterexample). -/
theorem c10_amended (base : String) (order : List (String × List Article)) (fs : FS)
    (c : String) (p : String)
    (hidx : fs.files (indexFile base) = some c)
    (hno : ∀ e ∈ order, tagFile base e.1 ≠ indexFile base) :
    (generateTags base order fs).files (indexFile base) = some c ∧
    (p ≠ indexFile base → (∀ e ∈ order, p ≠ tagFile base e.1) →
      (generateTags base order fs).files p = fs.files p) := by
  constructor
  · show (order.foldl (fun fs e => generateTagFile base e.1 e.2 fs)
        { mkdirTag base fs with
          files := openCreate (mkdirTag base fs).files (indexFile base) }).files
        (indexFile base) = some c
    rw [tagfold_untouched base order _ (indexFile base) (fun e he => (hno e he).symm)]
    simp [openCreate, mkdirTag_files, hidx]
  · intro hp hptag
    show (order.foldl (fun fs e => generateTagFile base e.1 e.2 fs)
        { mkdirTag base fs with
          files := openCreate (mkdirTag base fs).files (indexFile base) }).files p = fs.files p
    rw [tagfold_untouched base order _ p hptag]
    simp [openCreate, mkdirTag_files, hp]

theorem c10_witness :
    (generateTags "docs" [("x", [])] idxFS).files (indexFile "docs") = some "abc" ∧
    ("docs/other.html" ≠ indexFile "docs" →
      (∀ e ∈ [("x", ([] : List Article))], "docs/other.html" ≠ tagFile "docs" e.1) →
      (generateTags "docs" [("x", [])] idxFS).files "docs/other.html" =
        idxFS.files "docs/other.html") :=
  c10_amended "docs" [("x", [])] idxFS "abc" "docs/other.html" (by decide) (by decide)

theorem applyWrites_congr (ws : List (String × String)) :
    ∀ (f g : String → Option String), (∀ q, f q = g q) →
      ∀ p, applyWrites f ws p = applyWrites g ws p := by
  induction ws with
  | nil => intro f g h p; exact h p
  | cons w rest ih =>
    intro f g h p
    apply ih
    intro q
    simp only [writeNoTrunc]
    rw [h q, h w.1]

theorem applyWrites_isSome (ws : List (String × String)) :
    ∀ (f : String → Option String) (p : String),
      (f p).isSome = true → (applyWrites f ws p).isSome = true := by
  induction ws with
  | nil => intro f p h; exact h
  | cons w rest ih =>
    intro f p h
    apply ih
    simp only [writeNoTrunc]
    by_cases hq : p = w.1
    · simp [hq]
    · simp [hq, h]

theorem applyWrites_stable (ws : List (String × String)) :
    ∀ (f : String → Option String) (p c : String),
      f p = some c → (∀ w ∈ ws, w.1 = p → w.2 = c) →
      applyWrites f ws p = some c := by
  induction ws with
  | nil => intro f p c h _; exact h
  | cons w rest ih =>
    intro f p c h hall
    by_cases hw : w.1 = p
    · have hc : w.2 = c := hall w (List.mem_cons_self _ _) hw
      apply ih
      · show writeNoTrunc f w.1 w.2 p = some c
        simp only [writeNoTrunc]
        rw [if_pos hw.symm, hw, h, hc]
        simp [strDropLengthSelf, strAppendEmpty]
      · intro w' hw' hp'
        exact hall w' (List.mem_cons_of_mem _ hw') hp'
    · apply ih
      · show writeNoTrunc f w.1 w.2 p = some c
        simp only [writeNoTrunc]
        rw [if_neg (fun hh => hw hh.symm)]
        exact h
      · intro w' hw' hp'
        exact hall w' (List.mem_cons_of_mem _ hw') hp'

theorem applyWrites_first (ws : List (String × String)) :
    ∀ (f : String → Option String) (w : String × String),
      (∀ w1 ∈ ws, ∀ w2 ∈ ws, w1.1 = w2.1 → w1.2 = w2.2) →
      w ∈ ws → f w.1 = none →
      applyWrites f ws w.1 = some w.2 := by
  induction ws with
  | nil => intro f w _ hw _; exact absurd hw (List.not_mem_nil _)
  | cons w0 rest ih =>
    intro f w hsame hw hnone
    by_cases hpath : w0.1 = w.1
    · have hcont : w0.2 = w.2 :=
        hsame w0 (List.mem_cons_self _ _) w hw hpath
    
      have hf : writeNoTrunc f w0.1 w0.2 w.1 = some w.2 := by
        simp only [writeNoTrunc]
        rw [if_pos hpath.symm, hpath, hnone]
        simp [strDropEmpty, strAppendEmpty, hcont]
      exact applyWrites_stable rest _ w.1 w.2 hf
        (fun w' hw' hp' =>
          (hsame w' (List.mem_cons_of_mem _ hw') w0 (List.mem_cons_self _ _)
            (by rw [hp', hpath])).trans hcont)
    · rcases List.mem_cons.mp hw with rfl | hw'
      · exact absurd rfl hpath
      · show applyWrites (writeNoTrunc f w0.1 w0.2) rest w.1 = some w.2
        apply ih _ w
          (fun w1 h1 w2 h2 => hsame w1 (List.mem_cons_of_mem _ h1) w2 (List.mem_cons_of_mem _ h2))
          hw'
        show writeNoTrunc f w0.1 w0.2 w.1 = none
        simp only [writeNoTrunc]
        rw [if_neg (fun hh => hpath hh.symm)]
        exact hnone

theorem applyWrites_noop (ws : List (String × String)) :
    ∀ (f : String → Option String), (∀ w ∈ ws, f w.1 = some w.2) →
      ∀ p, applyWrites f ws p = f p := by
  induction ws with
  | nil => intro f _ p; rfl
  | cons w rest ih =>
    intro f hall p
    have hw : f w.1 = some w.2 := hall w (List.mem_cons_self _ _)
    have hptw : ∀ q, writeNoTrunc f w.1 w.2 q = f q := by
      intro q
      simp only [writeNoTrunc]
      by_cases hq : q = w.1
      · subst hq
        rw [if_pos rfl, hw]
        simp [strDropLengthSelf, strAppendEmpty]
      · rw [if_neg hq]
    show applyWrites (writeNoTrunc f w.1 w.2) rest p = f p
    rw [applyWrites_congr rest _ _ hptw p]
    exact ih f (fun w' hw' => hall w' (List.mem_cons_of_mem _ hw')) p

theorem applyWrites_append (xs ys : List (String × String)) :
    ∀ f, applyWrites f (xs ++ ys) = applyWrites (applyWrites f xs) ys := by
  induction xs with
  | nil => intro f; rfl
  | cons x rest ih => intro f; exact ih _

theorem pages_files (base : String) (arr : List Article) :
    ∀ fs : FS, (generateArticlePages base arr fs).files =
      applyWrites fs.files (arr.map fun a => (articleFile base a.Index, renderPage a)) := by
  induction arr with
  | nil => intro fs; rfl
  | cons a rest ih => intro fs; exact ih _

theorem tagfold_files (base : String) (order : List (String × List Article)) :
    ∀ fs : FS, (order.foldl (fun fs e => generateTagFile base e.1 e.2 fs) fs).files =
      applyWrites fs.files (order.map fun e => (tagFile base e.1, renderTag e.1 e.2)) := by
  induction order with
  | nil => intro fs; rfl
  | cons e rest ih => intro fs; exact ih _

theorem tagsrun_files (base : String) (order : List (String × List Article)) (fs : FS) :
    (generateTags base order fs).files =
      applyWrites (openCreate fs.files (indexFile base))
        (order.map fun e => (tagFile base e.1, renderTag e.1 e.2)) := by
  have h : (generateTags base order fs).files =
      applyWrites (openCreate (mkdirTag base fs).files (indexFile base))
        (order.map fun e => (tagFile base e.1, renderTag e.1 e.2)) :=
    tagfold_files base order
      { mkdirTag base fs with files := openCreate (mkdirTag base fs).files (indexFile base) }
  rw [mkdirTag_files] at h
  exact h

theorem run_files (render : String → String) (notes : List String) (base : String)
    (arr : List Article) (order : List (String × List Article)) (fs : FS) (p : String)
    (hok : parseFile render notes = .ok arr) :
    ((GenerateRun render notes base order fs).1).files p =
      applyWrites fs.files (writesOf base arr order) p := by
  have hrun : (GenerateRun render notes base order fs).1 =
      generateTags base order (generateArticlePages base arr (generateIndex base arr fs)) := by
    simp [GenerateRun, hok]
  rw [hrun, tagsrun_files]
  have h2 := pages_files base arr (generateIndex base arr fs)
  have h1 : (generateIndex base arr fs).files =
      applyWrites fs.files [(indexFile base, renderHome (prepareForRender arr))] := rfl
  have hsome : ((generateArticlePages base arr (generateIndex base arr fs)).files
      (indexFile base)).isSome = true := by
    rw [h2]
    apply applyWrites_isSome
    simp [generateIndex, writeNoTrunc]
  have hoc : ∀ q, openCreate
      (generateArticlePages base arr (generateIndex base arr fs)).files (indexFile base) q =
      (generateArticlePages base arr (generateIndex base arr fs)).files q := by
    intro q
    simp only [openCreate]
    by_cases hq : q = indexFile base
    · subst hq
      rw [if_pos rfl]
      rcases Option.isSome_iff_exists.mp hsome with ⟨v, hv⟩
      rw [hv]
      rfl
    · rw [if_neg hq]
  rw [applyWrites_congr _ _ _ hoc p, h2, h1, ← applyWrites_append, ← applyWrites_append]
  have hl : [(indexFile base, renderHome (prepareForRender arr))] ++
      ((arr.map fun a => (articleFile base a.Index, renderPage a)) ++
        (order.map fun e => (tagFile base e.1, renderTag e.1 e.2))) =
      writesOf base arr order := by
    simp [writesOf]
  rw [hl]

theorem writesOf_mem_iff (base : String) (arr : List Article)
    {o1 o2 : List (String × List Article)} (hp : o1.Perm o2) (w : String × String) :
    w ∈ writesOf base arr o1 ↔ w ∈ writesOf base arr o2 := by
  have hm := (hp.map (fun e => (tagFile base e.1, renderTag e.1 e.2))).mem_iff (a := w)
  simp only [writesOf, List.mem_cons, List.mem_append]
  rw [hm]

/-- C9 (amended): two successive runs on the same notes file, the first on
an empty output directory, yield byte-identical files at every path,
provided every pair of writes of the run that target the same path carry
the same content (in particular no two distinct tag names may clean to the
same tag-file path, and no tag path may collide with the index or an
article page) — the tag-map iteration orders of the two runs are arbitrary
permutations of the tag map. -/
theorem c9_amended (render : String → String) (notes : List String) (base : String)
    (arr : List Article) (order1 order2 : List (String × List Article)) (p : String)
    (hok : parseFile render notes = .ok arr)
    (hperm1 : order1.Perm (buildTagMap arr))
    (hperm2 : order2.Perm (buildTagMap arr))
    (hsame : ∀ w1 ∈ writesOf base arr (buildTagMap arr),
      ∀ w2 ∈ writesOf base arr (buildTagMap arr), w1.1 = w2.1 → w1.2 = w2.2) :
    (GenerateRun render notes base order1 emptyFS).2 = none ∧
    ((GenerateRun render notes base order2
        ((GenerateRun render notes base order1 emptyFS).1)).1).files p =
      ((GenerateRun render notes base order1 emptyFS).1).files p := by
  constructor
  · simp [GenerateRun, hok]
  · have hsame1 : ∀ w1 ∈ writesOf base arr order1, ∀ w2 ∈ writesOf base arr order1,
        w1.1 = w2.1 → w1.2 = w2.2 := by
      intro w1 h1 w2 h2 hpq
      exact hsame w1 ((writesOf_mem_iff base arr hperm1 w1).mp h1)
        w2 ((writesOf_mem_iff base arr hperm1 w2).mp h2) hpq
    have hfirst : ∀ w ∈ writesOf base arr order2,
        ((GenerateRun render notes base order1 emptyFS).1).files w.1 = some w.2 := by
      intro w hw
      have hw1 : w ∈ writesOf base arr order1 :=
        (writesOf_mem_iff base arr hperm1 w).mpr
          ((writesOf_mem_iff base arr hperm2 w).mp hw)
      rw [run_files render notes base arr order1 emptyFS w.1 hok]
      exact applyWrites_first (writesOf base arr order1) emptyFS.files w hsame1 hw1 rfl
    rw [run_files render notes base arr order2
      ((GenerateRun render notes base order1 emptyFS).1) p hok]
    exact applyWrites_noop (writesOf base arr order2)
      ((GenerateRun render notes base order1 emptyFS).1).files hfirst p

set_option maxRecDepth 1000000 in
theorem c9_witness :
    (GenerateRun (fun s => s) ["# A", "Date: 2015/03/02", "Tags: x"] "docs"
        (buildTagMap [zeroArticle, ⟨"A", "# A", ["x"], ⟨2015, 3, 2⟩, 1⟩]) emptyFS).2 = none ∧
    ((GenerateRun (fun s => s) ["# A", "Date: 2015/03/02", "Tags: x"] "docs"
        (buildTagMap [zeroArticle, ⟨"A", "# A", ["x"], ⟨2015, 3, 2⟩, 1⟩])
        ((GenerateRun (fun s => s) ["# A", "Date: 2015/03/02", "Tags: x"] "docs"
            (buildTagMap [zeroArticle, ⟨"A", "# A", ["x"], ⟨2015, 3, 2⟩, 1⟩]) emptyFS).1)).1).files
        (indexFile "docs") =
      ((GenerateRun (fun s => s) ["# A", "Date: 2015/03/02", "Tags: x"] "docs"
          (buildTagMap [zeroArticle, ⟨"A", "# A", ["x"], ⟨2015, 3, 2⟩, 1⟩]) emptyFS).1).files
        (indexFile "docs") :=
  c9_amended (fun s => s) ["# A", "Date: 2015/03/02", "Tags: x"] "docs"
    [zeroArticle, ⟨"A", "# A", ["x"], ⟨2015, 3, 2⟩, 1⟩]
    (buildTagMap [zeroArticle, ⟨"A", "# A", ["x"], ⟨2015, 3, 2⟩, 1⟩])
    (buildTagMap [zeroArticle, ⟨"A", "# A", ["x"], ⟨2015, 3, 2⟩, 1⟩]) (indexFile "docs")
    (by decide) (List.Perm.refl _) (List.Perm.refl _) (by decide)

end Articles
